import Mathlib

/-!
Shallow embedding of the DisMusic server (`app.py`): the transport state
machine and realtime handlers (`handle_connect`, `handle_player_action`),
the upload pipeline (collision-free S3 key resolution, TinyTag metadata
extraction with fallback), and the playlist catalog operations
(`get_playlist`, `delete_song`, `rename_song`, `reorder_playlist`).

Python strings are modelled as `List Char`; wall-clock times and audio
positions (`time.time()` floats) are modelled as exact rationals; the
PostgreSQL catalog is a list of rows plus an autoincrement counter; the S3
bucket is the list of keys it currently holds.  External effects (S3 calls,
TinyTag parsing) are passed in as explicit outcomes: a `Bool` for whether an
S3 call succeeds, an `Option Tag` for whether TinyTag parses the bytes.
-/

namespace DisMusic

/-- Python strings, modelled as lists of characters. -/
abbrev Str := List Char

/-- Index of the last occurrence of `c` in `s` (Python `str.rfind`, as an
`Option` instead of `-1`). -/
def lastIdxOf (c : Char) : Str → Option Nat
  | [] => none
  | x :: xs =>
    match lastIdxOf c xs with
    | some i => some (i + 1)
    | none => if x = c then some 0 else none

/-- Python `os.path.splitext`: split at the last dot, provided some
character strictly between the last path separator and that dot is not
itself a dot (so a purely leading-dot basename has no extension). -/
def splitext (p : Str) : Str × Str :=
  match lastIdxOf '.' p with
  | none => (p, [])
  | some d =>
    let base : Nat :=
      match lastIdxOf '/' p with
      | some s => s + 1
      | none => 0
    if ((p.drop base).take (d - base)).any (fun ch => ch ≠ '.') then
      (p.take d, p.drop d)
    else (p, [])

/-- Python `str.replace(old, new)` for single-character patterns. -/
def pyReplaceChar (s : Str) (old new : Char) : Str :=
  s.map fun ch => if ch = old then new else ch

/-- Python `str.capitalize()`: first character uppercased, the rest
lowercased (ASCII case mapping). -/
def pyCapitalize : Str → Str
  | [] => []
  | ch :: rest => ch.toUpper :: rest.map Char.toLower

/-- The character of a decimal digit. -/
def digitChar : Nat → Char
  | 0 => '0' | 1 => '1' | 2 => '2' | 3 => '3' | 4 => '4'
  | 5 => '5' | 6 => '6' | 7 => '7' | 8 => '8' | 9 => '9'
  | _ => '*'

/-- Decimal digits of `n`, least significant first, by structural recursion
on a fuel argument (`n` itself suffices as fuel). -/
def natReprAux : Nat → Nat → List Char
  | 0, _ => []
  | _ + 1, 0 => []
  | fuel + 1, n + 1 => digitChar ((n + 1) % 10) :: natReprAux fuel ((n + 1) / 10)

/-- Decimal rendering of a natural number (Python `str(n)` / f-string
interpolation of an `int`). -/
def natRepr (n : Nat) : Str :=
  if n = 0 then ['0'] else (natReprAux n n).reverse

/-! ## Transport state machine and realtime handlers (`app.py` section 6) -/

/-- The process-wide `server_state` dict. -/
structure ServerState where
  current_song_id : Option Nat
  is_playing : Bool
  current_time : ℚ
  last_update_time : ℚ
deriving DecidableEq

/-- A `player_action` payload: `data.get("action")`, `data.get("song_id")`,
`data.get("time", default)`; `none` models an absent key. -/
structure ActionData where
  action : String
  song_id : Option Nat
  time : Option ℚ
deriving DecidableEq

/-- The `connect` handler's `state_to_send`: a copy of `server_state`, with
`current_time` drift-adjusted by `now - last_update_time` when playing. -/
def handle_connect (st : ServerState) (now : ℚ) : ServerState :=
  if st.is_playing then
    { st with current_time := st.current_time + (now - st.last_update_time) }
  else st

/-- The `player_action` handler: returns the new `server_state` and whether
a `state_update` broadcast was emitted.  An unrecognized action returns
before touching `last_update_time` and emits nothing. -/
def handle_player_action (st : ServerState) (d : ActionData) (now : ℚ) :
    ServerState × Bool :=
  let applied : Option ServerState :=
    if d.action = "PLAY" then
      some { st with is_playing := true, current_song_id := d.song_id,
                     current_time := d.time.getD 0 }
    else if d.action = "PAUSE" then
      some { st with is_playing := false,
                     current_time := d.time.getD st.current_time }
    else if d.action = "SEEK" then
      some { st with current_time := d.time.getD 0 }
    else if d.action = "CHANGE_SONG" then
      some { st with is_playing := true, current_song_id := d.song_id,
                     current_time := 0 }
    else none
  match applied with
  | some s => ({ s with last_update_time := now }, true)
  | none => (st, false)

/-! ## Catalog and upload pipeline (`app.py` sections 5, 8, 10) -/

/-- Error outcomes of the HTTP handlers: 400 (`invalidInput`) and 404
(`notFound`).  500 responses from S3 are modelled where they occur. -/
inductive Err where
  | invalidInput : Err
  | notFound : Err
deriving DecidableEq

/-- One row of the `Playlist` table. -/
structure Track where
  id : Nat
  name : Str
  path : Str
  title : Str
  artist : Option Str
  album : Option Str
  duration : Option ℚ
  has_art : Nat
  ordering : Nat
deriving DecidableEq

/-- The `Playlist` table plus its autoincrement primary-key counter
(PostgreSQL serial keys start at 1). -/
structure Store where
  tracks : List Track
  nextId : Nat
deriving DecidableEq

/-- The freshly created database. -/
def emptyStore : Store := ⟨[], 1⟩

/-- What a successful `TinyTag.get` returns: every field independently
optional, `image` the raw cover-art bytes (or `none`). -/
structure Tag where
  title : Option Str
  artist : Option Str
  album : Option Str
  duration : Option ℚ
  image : Option (List Nat)
deriving DecidableEq

/-- Extracted metadata as the upload handler binds it. -/
structure Meta where
  title : Str
  artist : Option Str
  album : Option Str
  duration : Option ℚ
  image : Option (List Nat)
deriving DecidableEq

/-- The directory part of every track blob key (`f"uploads/..."`). -/
def uploadsDir : Str := "uploads/".toList

/-- The S3 key of a track blob: `f"uploads/SAFE_NAME"`. -/
def s3Path (nm : Str) : Str := uploadsDir ++ nm

/-- The S3 key of a cover-art blob: `f"art/SONG_ID.jpg"`. -/
def artPath (songId : Nat) : Str :=
  "art/".toList ++ (natRepr songId ++ ".jpg".toList)

/-- Candidate filename tried after a collision: `f"NAME_COUNTERMEXT"` built
from the stem and extension of the original filename. -/
def mkCandidate (filename : Str) (n : Nat) : Str :=
  (splitext filename).1 ++ (('_' :: natRepr n) ++ (splitext filename).2)

/-- The upload handler's uniqueness probe: while `head_object` finds the
key, substitute `NAME_COUNTER + EXT` for the name and bump the counter.  The
source loop has no bound; `ks.length + 2` units of fuel are enough to reach
a free key (`probeName_avoids`), so the embedding terminates exactly where
the source does. -/
def probeName (ks : List Str) (filename : Str) : Nat → Str → Nat → Str
  | 0, cur, _ => cur
  | fuel + 1, cur, c =>
    if s3Path cur ∈ ks then probeName ks filename fuel (mkCandidate filename c) (c + 1)
    else cur

/-- The collision-free `safe_name` the upload handler settles on. -/
def resolveName (ks : List Str) (filename : Str) : Str :=
  probeName ks filename (ks.length + 2) filename 1

/-- Title fallback: filename minus extension, underscores to spaces,
capitalized. -/
def fallbackTitle (nm : Str) : Str :=
  pyCapitalize (pyReplaceChar (splitext nm).1 '_' ' ')

/-- The metadata block of the upload handler: on TinyTag success take the
tag fields, falling back on the derived title when `tag.title` is `None` or
empty (Python `or`); on any TinyTag exception every field is absent and the
title is the fallback. -/
def extractMeta (tagResult : Option Tag) (safe_name : Str) : Meta :=
  match tagResult with
  | some tag =>
    { title := match tag.title with
        | some t => if t = [] then fallbackTitle safe_name else t
        | none => fallbackTitle safe_name
      artist := tag.artist
      album := tag.album
      duration := tag.duration
      image := tag.image }
  | none =>
    { title := fallbackTitle safe_name
      artist := none, album := none, duration := none, image := none }

/-- `db.session.query(func.max(Playlist.ordering)).scalar() or 0`: the
maximum ordering over all rows, `0` when the table is empty. -/
def maxOrdering (s : Store) : Nat :=
  s.tracks.foldr (fun t m => max t.ordering m) 0

/-- The upload handler past validation: resolve a unique key, write the
blob (`ks` gains the key), extract metadata, insert the row with
`ordering = max + 1`, then attempt the cover-art write (`artWriteOk` is
whether that S3 call succeeds; on failure the exception is logged and
`has_art` stays 0). -/
def upload (s : Store) (ks : List Str) (filename : Str) (tagResult : Option Tag)
    (artWriteOk : Bool) : Store × List Str :=
  let safe := resolveName ks filename
  let path := s3Path safe
  let meta := extractMeta tagResult safe
  let song : Track :=
    { id := s.nextId, name := safe, path := path, title := meta.title,
      artist := meta.artist, album := meta.album, duration := meta.duration,
      has_art := 0, ordering := maxOrdering s + 1 }
  let hasImage : Bool := !(meta.image.getD []).isEmpty
  let song := if hasImage && artWriteOk then { song with has_art := 1 } else song
  let ks := ks ++ [path]
  let ks := if hasImage && artWriteOk then ks ++ [artPath s.nextId] else ks
  (⟨s.tracks ++ [song], s.nextId + 1⟩, ks)

/-- The `/playlist` handler: rows ordered by `ordering` ascending (the
query specifies no tie-break; the embedding uses a stable sort). -/
def byOrdering (a b : Track) : Prop := a.ordering ≤ b.ordering

instance : DecidableRel byOrdering := fun a b => Nat.decLe a.ordering b.ordering

instance : IsTotal Track byOrdering := ⟨fun a b => Nat.le_total a.ordering b.ordering⟩

instance : IsTrans Track byOrdering := ⟨fun _ _ _ h1 h2 => Nat.le_trans h1 h2⟩

/-- The list `GET /playlist` returns. -/
def get_playlist (s : Store) : List Track :=
  List.insertionSort byOrdering s.tracks

/-- The `/playlist/delete` handler.  `songId` is the JSON `id` field
(`none` when absent); `id` absent or `0` fails the Python falsy check.  The
S3 deletes sit in a `try` whose `except` only logs, so `blobDeleteOk` never
affects the catalog: the row is removed either way. -/
def delete_song (s : Store) (ks : List Str) (songId : Option Nat)
    (blobDeleteOk : Bool) : (Store × List Str) × Option Err :=
  match songId with
  | none => ((s, ks), some .invalidInput)
  | some 0 => ((s, ks), some .invalidInput)
  | some (n + 1) =>
    match s.tracks.find? (fun t => t.id == n + 1) with
    | none => ((s, ks), some .notFound)
    | some song =>
      let ks :=
        if blobDeleteOk then
          if song.has_art != 0 then
            (ks.filter (fun k => k != song.path)).filter (fun k => k != artPath song.id)
          else ks.filter (fun k => k != song.path)
        else ks
      ((⟨s.tracks.filter (fun t => t.id != n + 1), s.nextId⟩, ks), none)

/-- The `/playlist/rename` handler: an empty (falsy) name is rejected, an
unknown id is 404, otherwise only `title` of that row changes. -/
def rename_song (s : Store) (songId : Nat) (newName : Str) : Store × Option Err :=
  if newName = [] then (s, some .invalidInput)
  else
    match s.tracks.find? (fun t => t.id == songId) with
    | none => (s, some .notFound)
    | some _ =>
      (⟨s.tracks.map fun t =>
          if t.id == songId then { t with title := newName } else t,
        s.nextId⟩, none)

/-- One loop iteration's effect: set `ordering := idx` on the row with the
given id, or nothing when `db.session.get` finds no row (`if song:`). -/
def setOrdering (s : Store) (songId : Nat) (idx : Nat) : Store :=
  ⟨s.tracks.map fun t =>
      if t.id == songId then { t with ordering := idx } else t,
    s.nextId⟩

/-- The reorder loop over `enumerate(order)`.  A list entry `int()` cannot
parse (modelled `none`) raises, aborting the loop: `none` overall. -/
def applyReorder : Store → List (Option Nat) → Nat → Option Store
  | s, [], _ => some s
  | _, none :: _, _ => none
  | s, some songId :: rest, idx => applyReorder (setOrdering s songId idx) rest (idx + 1)

/-- The `/playlist/reorder` handler: on success the session commits all the
assignments; on an exception `db.session.rollback()` restores the pre-call
rows and a 500 is returned. -/
def reorder_playlist (s : Store) (order : List (Option Nat)) : Store × Option Err :=
  match applyReorder s order 0 with
  | some s2 => (s2, none)
  | none => (s, some .invalidInput)

/-- One client-visible mutating operation of the service. -/
inductive Op where
  | upload (filename : Str) (tagResult : Option Tag) (artWriteOk : Bool)
  | rename (songId : Nat) (newName : Str)
  | delete (songId : Option Nat) (blobDeleteOk : Bool)
  | reorder (order : List (Option Nat))

/-- Apply one operation to the catalog and the S3 bucket. -/
def runOp : Store × List Str → Op → Store × List Str
  | (s, ks), .upload f tr ok => upload s ks f tr ok
  | (s, ks), .rename i nm => ((rename_song s i nm).1, ks)
  | (s, ks), .delete i ok => (delete_song s ks i ok).1
  | (s, ks), .reorder o => ((reorder_playlist s o).1, ks)

/-- Run a sequence of operations against the fresh service. -/
def run (ops : List Op) : Store × List Str :=
  ops.foldl runOp (emptyStore, [])

/-- Storage keys of the live catalog rows. -/
def pathsOf (s : Store) : List Str := s.tracks.map fun t => t.path

/-! ## Concrete scenarios used by individual claims -/

/-- Two inserts followed by two single-id reorders: each reorder assigns
index 0 to a different row. -/
def c4Ops : List Op :=
  [.upload "a.mp3".toList none false, .upload "b.mp3".toList none false,
   .reorder [some 1], .reorder [some 2]]

/-- One upload, so the store holds exactly the track with id 1. -/
def c5Ops : List Op := [.upload "a.mp3".toList none false]

/-- Three uploads, yielding tracks with ids 1, 2, 3. -/
def c6Ops : List Op :=
  [.upload "a.mp3".toList none false, .upload "b.mp3".toList none false,
   .upload "c.mp3".toList none false]

/-- Uploading two files both named "song.mp3". -/
def c9Ops : List Op :=
  [.upload "song.mp3".toList none false, .upload "song.mp3".toList none false]

/-! ## Transport state machine claims -/

/-- C1: the snapshot a newly connected client receives is drift-adjusted
exactly when playing — taken at `lastEventAt + D` (`D ≥ 0`, no intervening
action) it reports position `p + D` — and verbatim when paused: any later
snapshot reports exactly the `positionSeconds` stored at pause time. -/
theorem snapshot_drift_spec :
    (∀ (st : ServerState) (D : ℚ), st.is_playing = true → 0 ≤ D →
      (handle_connect st (st.last_update_time + D)).current_time
        = st.current_time + D)
    ∧ (∀ (st : ServerState) (t : ℚ), st.is_playing = false →
      (handle_connect st t).current_time = st.current_time) := by
  constructor
  · intro st D hp _
    simp [handle_connect, hp]
  · intro st t hp
    simp [handle_connect, hp]

/-- C1 witness: a playing state at stored position 10 since time 100,
snapshotted 7 seconds later, reports 17; a paused one reports 10. -/
theorem snapshot_drift_spec_witness :
    (handle_connect ⟨some 5, true, 10, 100⟩ (100 + 7)).current_time = 10 + 7
    ∧ (handle_connect ⟨some 5, false, 10, 100⟩ 123).current_time = 10 :=
  ⟨snapshot_drift_spec.1 ⟨some 5, true, 10, 100⟩ 7 rfl (by norm_num),
   snapshot_drift_spec.2 ⟨some 5, false, 10, 100⟩ 123 rfl⟩

/-- C2 counterexample: with the transport playing at stored position 10
since time 100, a PAUSE carrying no time at `now = 105` stores position 10,
not the drift-adjusted `10 + (105 - 100)` the claim requires. -/
theorem pause_default_cex :
    ¬ ((handle_player_action ⟨some 1, true, 10, 100⟩ ⟨"PAUSE", none, none⟩
          105).1.current_time = 10 + (105 - 100)) := by
  simp [handle_player_action]
  norm_num

/-- C2 amended: for every playing transport state, a PAUSE action without
an explicit time value sets `positionSeconds` to the stored
`positionSeconds` (the position as of `lastEventAt`, not the drift-adjusted
current position), sets `isPlaying` to false and stamps
`lastEventAt = now`. -/
theorem pause_default_spec (st : ServerState) (sid : Option Nat) (now : ℚ)
    (_hp : st.is_playing = true) :
    handle_player_action st ⟨"PAUSE", sid, none⟩ now
      = ({ st with is_playing := false, last_update_time := now }, true) := by
  simp [handle_player_action]

/-- C2 witness: pausing the playing state `(10, 100)` at time 105 yields the
stored position 10 with `isPlaying = false`. -/
theorem pause_default_spec_witness :
    handle_player_action ⟨some 1, true, 10, 100⟩ ⟨"PAUSE", none, none⟩ 105
      = (⟨some 1, false, 10, 105⟩, true) :=
  pause_default_spec ⟨some 1, true, 10, 100⟩ none 105 rfl

/-- C7 counterexample: `CHANGE_SONG` is not among the four kinds the claim
lists as recognized, yet the handler applies it and broadcasts, so the
claim's no-op property fails at `action = "CHANGE_SONG"`. -/
theorem unrecognized_action_cex :
    ("CHANGE_SONG" ∉ (["PLAY", "PAUSE", "SEEK", "CHANGE_TRACK"] : List String))
    ∧ ¬ (handle_player_action ⟨none, false, 0, 0⟩ ⟨"CHANGE_SONG", some 7, none⟩ 5
          = (⟨none, false, 0, 0⟩, false)) := by
  constructor
  · decide
  · simp [handle_player_action]

/-- C7 amended: the kinds the code recognizes are PLAY, PAUSE, SEEK and
CHANGE_SONG (the source's name for the claim's CHANGE_TRACK); every action
whose `action` field is none of these leaves the transport state completely
unchanged — `lastEventAt` included — reports no error to the sender and
produces no `state_update` broadcast. -/
theorem unrecognized_action_spec (st : ServerState) (d : ActionData) (now : ℚ)
    (h : d.action ∉ (["PLAY", "PAUSE", "SEEK", "CHANGE_SONG"] : List String)) :
    handle_player_action st d now = (st, false) := by
  have h1 : ¬ d.action = "PLAY" := fun e => h (by simp [e])
  have h2 : ¬ d.action = "PAUSE" := fun e => h (by simp [e])
  have h3 : ¬ d.action = "SEEK" := fun e => h (by simp [e])
  have h4 : ¬ d.action = "CHANGE_SONG" := fun e => h (by simp [e])
  simp [handle_player_action, h1, h2, h3, h4]

/-- C7 witness: a `STOP` action is ignored without touching the state. -/
theorem unrecognized_action_spec_witness :
    handle_player_action ⟨none, true, 3, 50⟩ ⟨"STOP", none, none⟩ 60
      = (⟨none, true, 3, 50⟩, false) :=
  unrecognized_action_spec ⟨none, true, 3, 50⟩ ⟨"STOP", none, none⟩ 60 (by decide)

/-- C10: a SEEK action whose payload omits the time field sets
`positionSeconds` to 0 rather than rejecting or ignoring it, leaves
`isPlaying` and `activeTrackId` unchanged, stamps `lastEventAt = now`, and
is broadcast like any accepted action. -/
theorem seek_default_spec (st : ServerState) (sid : Option Nat) (now : ℚ) :
    handle_player_action st ⟨"SEEK", sid, none⟩ now
      = ({ st with current_time := 0, last_update_time := now }, true) := by
  simp [handle_player_action]

/-! ## Helper lemmas about the catalog operations -/

/-- A probe whose current key is already free returns it unchanged. -/
theorem probeName_of_free (ks : List Str) (f : Str) (fuel : Nat) (cur : Str)
    (c : Nat) (h : s3Path cur ∉ ks) : probeName ks f fuel cur c = cur := by
  cases fuel <;> simp [probeName, h]

/-- Reordering rewrites only the `ordering` column: any projection of a
row that ignores `ordering` is preserved across a successful reorder. -/
theorem applyReorder_map_eq {α : Type} (f : Track → α)
    (hf : ∀ (t : Track) (x : Nat), f { t with ordering := x } = f t) :
    ∀ (order : List (Option Nat)) (idx : Nat) (s s2 : Store),
    applyReorder s order idx = some s2 → s2.tracks.map f = s.tracks.map f
  | [], _, s, s2, h => by
    simp [applyReorder] at h
    rw [h]
  | none :: rest, _, s, s2, h => by
    simp [applyReorder] at h
  | some i :: rest, idx, s, s2, h => by
    have ih := applyReorder_map_eq f hf rest (idx + 1) (setOrdering s i idx) s2 h
    rw [ih]
    simp only [setOrdering, List.map_map, List.map_inj_left, Function.comp_apply]
    intro a _
    by_cases hid : a.id = i
    · simp only [hid, beq_self_eq_true, if_true]
      simpa [hid] using hf a idx
    · simp [hid]

/-- A reorder list containing an unparseable entry aborts the loop. -/
theorem applyReorder_of_mem_none : ∀ (order : List (Option Nat)) (idx : Nat)
    (s : Store), none ∈ order → applyReorder s order idx = none
  | [], _, _, h => by simp at h
  | none :: rest, _, _, _ => rfl
  | some i :: rest, idx, s, h => by
    have : none ∈ rest := by simpa using h
    exact applyReorder_of_mem_none rest (idx + 1) (setOrdering s i idx) this

/-- Characterization of a fully parseable reorder with pairwise distinct
ids: the row whose id sits at position `j` of the list gets
`ordering = idx + j`; rows whose id is absent from the list are
untouched; ids naming no row are silently skipped. -/
theorem applyReorder_allSome : ∀ (ids : List Nat) (idx : Nat) (s : Store),
    ids.Nodup →
    applyReorder s (ids.map some) idx = some ⟨s.tracks.map (fun t =>
      (ids.findIdx? (fun i => i == t.id)).elim t
        fun j => { t with ordering := idx + j }), s.nextId⟩
  | [], idx, s, _ => by
    simp [applyReorder]
  | i :: rest, idx, s, hnd => by
    have hi : i ∉ rest := (List.nodup_cons.mp hnd).1
    have ih := applyReorder_allSome rest (idx + 1) (setOrdering s i idx)
      (List.nodup_cons.mp hnd).2
    simp only [List.map_cons, applyReorder]
    rw [ih]
    simp only [Option.some.injEq, Store.mk.injEq]
    refine ⟨?_, rfl⟩
    simp only [setOrdering, List.map_map, List.map_inj_left, Function.comp_apply]
    intro t _
    by_cases ht : t.id = i
    · have hnone : rest.findIdx? (fun x => x == t.id) = none := by
        rw [List.findIdx?_eq_none_iff]
        intro x hx
        simp only [beq_eq_false_iff_ne, ne_eq]
        intro hxx
        exact hi ((hxx.trans ht) ▸ hx)
      simp only [ht, beq_self_eq_true, if_true]
      simp only [List.findIdx?_cons, ht, beq_self_eq_true, if_true]
      have hnone2 : rest.findIdx? (fun x => x == i) = none := ht ▸ hnone
      simp [hnone2, Option.elim]
    · have hne : (t.id == i) = false := by simp [ht]
      simp only [hne, if_false]
      have hne2 : (i == t.id) = false := by
        simp only [beq_eq_false_iff_ne, ne_eq]
        exact fun e => ht e.symm
      simp only [List.findIdx?_cons, hne2, if_false, List.findIdx?_succ]
      cases hF : rest.findIdx? (fun x => x == t.id) with
      | none => simp [hF]
      | some j => simp [hF, Option.elim, Nat.add_assoc, Nat.add_comm 1 j]

/-! ## Helper lemmas for key uniqueness (claim C3) -/

/-- The fueled digit extraction agrees with `Nat.digits 10` once the fuel
covers the number. -/
theorem natReprAux_eq_digits : ∀ (fuel n : Nat), n ≤ fuel →
    natReprAux fuel n = (Nat.digits 10 n).map digitChar := by
  intro fuel
  induction fuel with
  | zero =>
    intro n h
    interval_cases n
    simp [natReprAux]
  | succ fuel ih =>
    intro n h
    match n with
    | 0 => simp [natReprAux]
    | m + 1 =>
      rw [natReprAux, Nat.digits_def' (by norm_num : (1:ℕ) < 10) (Nat.succ_pos m),
        List.map_cons]
      congr 1
      refine ih ((m + 1) / 10) ?_
      have := Nat.div_lt_self (Nat.succ_pos m) (by norm_num : 1 < 10)
      omega

/-- Distinct decimal digits render as distinct characters. -/
theorem digitChar_inj {d e : Nat} (hd : d < 10) (he : e < 10) :
    digitChar d = digitChar e → d = e := by
  interval_cases d <;> interval_cases e <;> decide

/-- Digit-wise character rendering is injective on digit lists. -/
theorem map_digitChar_inj : ∀ {xs ys : List Nat}, (∀ x ∈ xs, x < 10) →
    (∀ y ∈ ys, y < 10) → xs.map digitChar = ys.map digitChar → xs = ys
  | [], [], _, _, _ => rfl
  | [], _ :: _, _, _, h => by simp at h
  | _ :: _, [], _, _, h => by simp at h
  | x :: xs, y :: ys, hx, hy, h => by
    simp only [List.map_cons, List.cons.injEq] at h
    have h1 := digitChar_inj (hx x (by simp)) (hy y (by simp)) h.1
    have h2 := map_digitChar_inj (fun a ha => hx a (by simp [ha]))
      (fun a ha => hy a (by simp [ha])) h.2
    rw [h1, h2]

/-- Decimal rendering is injective on positive counters. -/
theorem natRepr_inj_pos {n m : Nat} (hn : 0 < n) (hm : 0 < m) :
    natRepr n = natRepr m → n = m := by
  intro h
  unfold natRepr at h
  rw [if_neg (Nat.pos_iff_ne_zero.mp hn), if_neg (Nat.pos_iff_ne_zero.mp hm),
    natReprAux_eq_digits n n le_rfl, natReprAux_eq_digits m m le_rfl] at h
  have h3 := map_digitChar_inj
    (fun d hd => Nat.digits_lt_base (by norm_num) hd)
    (fun d hd => Nat.digits_lt_base (by norm_num) hd)
    (List.reverse_inj.mp h)
  calc n = Nat.ofDigits 10 (Nat.digits 10 n) := (Nat.ofDigits_digits 10 n).symm
    _ = Nat.ofDigits 10 (Nat.digits 10 m) := by rw [h3]
    _ = m := Nat.ofDigits_digits 10 m

/-- Distinct positive counters yield distinct candidate keys for the same
original filename. -/
theorem s3Key_candidate_inj (f : Str) {n m : Nat} (hn : 0 < n) (hm : 0 < m)
    (h : s3Path (mkCandidate f n) = s3Path (mkCandidate f m)) : n = m := by
  unfold s3Path mkCandidate at h
  have h1 := List.append_inj_right h rfl
  have h2 := List.append_inj_right h1 rfl
  have h3 := (List.append_inj' h2 rfl).1
  have h4 : natRepr n = natRepr m := by injection h3
  exact natRepr_inj_pos hn hm h4

/-- Pigeonhole: among the first `ks.length + 1` candidate keys, at least
one is not held by the bucket. -/
theorem exists_free_candidate (ks : List Str) (f : Str) :
    ∃ n, 1 ≤ n ∧ n ≤ ks.length + 1 ∧ s3Path (mkCandidate f n) ∉ ks := by
  by_contra hall
  push_neg at hall
  have hsub : ((List.range (ks.length + 1)).map
      fun i => s3Path (mkCandidate f (i + 1))) ⊆ ks := by
    intro x hx
    simp only [List.mem_map, List.mem_range] at hx
    obtain ⟨i, hi, rfl⟩ := hx
    exact hall (i + 1) (by omega) (by omega)
  have hnd : ((List.range (ks.length + 1)).map
      fun i => s3Path (mkCandidate f (i + 1))).Nodup := by
    refine List.Nodup.map_on ?_ (List.nodup_range _)
    intro i _ j _ hij
    have := s3Key_candidate_inj f (Nat.succ_pos i) (Nat.succ_pos j) hij
    omega
  have hlen := (hnd.subperm hsub).length_le
  simp only [List.length_map, List.length_range] at hlen
  omega

/-- With a free candidate inside the fuel window, the probe ends on a key
the bucket does not hold. -/
theorem probeName_avoids (ks : List Str) (f : Str) : ∀ (fuel c : Nat) (cur : Str),
    (∃ n, c ≤ n ∧ n < c + fuel ∧ s3Path (mkCandidate f n) ∉ ks) →
    s3Path (probeName ks f fuel cur c) ∉ ks := by
  intro fuel
  induction fuel with
  | zero =>
    intro c cur h
    obtain ⟨n, h1, h2, _⟩ := h
    omega
  | succ fuel ih =>
    intro c cur h
    obtain ⟨n, h1, h2, h3⟩ := h
    by_cases hc : s3Path cur ∈ ks
    · simp only [probeName, if_pos hc]
      rcases Nat.eq_or_lt_of_le h1 with rfl | hlt
      · rw [probeName_of_free ks f fuel (mkCandidate f c) (c + 1) h3]
        exact h3
      · exact ih (c + 1) (mkCandidate f c) ⟨n, hlt, by omega, h3⟩
    · simp only [probeName, if_neg hc]
      exact hc

/-- The name the upload handler settles on has a key the bucket does not
hold: the source's unbounded probe loop exits, and it exits on a free
key. -/
theorem resolveName_fresh (ks : List Str) (f : Str) :
    s3Path (resolveName ks f) ∉ ks := by
  unfold resolveName
  apply probeName_avoids
  obtain ⟨n, h1, h2, h3⟩ := exists_free_candidate ks f
  exact ⟨n, h1, by omega, h3⟩

/-- Track keys live under `uploads/`, art keys under `art/`: they never
collide. -/
theorem s3Path_ne_artPath (nm : Str) (i : Nat) : s3Path nm ≠ artPath i := by
  intro h
  have h1 : (s3Path nm).head? = some 'u' := rfl
  have h2 : (artPath i).head? = some 'a' := rfl
  rw [h, h2] at h1
  simp at h1

/-- An upload appends exactly its resolved key to the live row keys. -/
theorem pathsOf_upload (s : Store) (ks : List Str) (f : Str) (tg : Option Tag)
    (ok : Bool) :
    pathsOf (upload s ks f tg ok).1 = pathsOf s ++ [s3Path (resolveName ks f)] := by
  simp only [pathsOf, upload]
  split <;> simp

/-- An upload only ever adds keys to the bucket. -/
theorem upload_keys_mono (s : Store) (ks : List Str) (f : Str) (tg : Option Tag)
    (ok : Bool) :
    ks ++ [s3Path (resolveName ks f)] ⊆ (upload s ks f tg ok).2 := by
  simp only [upload]
  split
  · exact List.subset_append_left _ _
  · exact fun x hx => hx

/-- A rename leaves every row's storage key in place. -/
theorem pathsOf_rename (s : Store) (i : Nat) (nm : Str) :
    pathsOf (rename_song s i nm).1 = pathsOf s := by
  unfold pathsOf rename_song
  split
  · rfl
  · cases hfind : s.tracks.find? (fun t => t.id == i) with
    | none => simp [hfind]
    | some t1 =>
      simp only [hfind, List.map_map, List.map_inj_left, Function.comp_apply]
      intro a _
      by_cases hid : a.id = i <;> simp [hid]

/-- A reorder leaves every row's storage key in place. -/
theorem pathsOf_reorder (s : Store) (o : List (Option Nat)) :
    pathsOf (reorder_playlist s o).1 = pathsOf s := by
  unfold pathsOf reorder_playlist
  cases happ : applyReorder s o 0 with
  | none => simp
  | some s2 =>
    simpa using applyReorder_map_eq (fun t => t.path) (fun _ _ => rfl) o 0 s s2 happ

/-- One operation preserves the catalog/bucket invariant: live keys are
pairwise distinct, all held by the bucket and all under `uploads/`. -/
theorem runOp_step (op : Op) (s : Store) (ks : List Str)
    (h1 : (pathsOf s).Nodup) (h2 : pathsOf s ⊆ ks)
    (h3 : ∀ p ∈ pathsOf s, ∃ nm, p = s3Path nm) :
    (pathsOf (runOp (s, ks) op).1).Nodup
      ∧ pathsOf (runOp (s, ks) op).1 ⊆ (runOp (s, ks) op).2
      ∧ ∀ p ∈ pathsOf (runOp (s, ks) op).1, ∃ nm, p = s3Path nm := by
  cases op with
  | upload f tg ok =>
    have hfresh := resolveName_fresh ks f
    have hmono := upload_keys_mono s ks f tg ok
    refine ⟨?_, ?_, ?_⟩
    · rw [show pathsOf (runOp (s, ks) (.upload f tg ok)).1
          = pathsOf s ++ [s3Path (resolveName ks f)] from pathsOf_upload s ks f tg ok]
      refine List.Nodup.append h1 (List.nodup_singleton _) ?_
      rw [List.disjoint_singleton]
      exact fun hmem => hfresh (h2 hmem)
    · rw [show pathsOf (runOp (s, ks) (.upload f tg ok)).1
          = pathsOf s ++ [s3Path (resolveName ks f)] from pathsOf_upload s ks f tg ok]
      rw [List.append_subset]
      constructor
      · exact fun p hp => hmono (List.mem_append_left _ (h2 hp))
      · intro p hp
        rw [List.mem_singleton] at hp
        exact hmono (hp ▸ List.mem_append_right _ (List.mem_singleton_self _))
    · rw [show pathsOf (runOp (s, ks) (.upload f tg ok)).1
          = pathsOf s ++ [s3Path (resolveName ks f)] from pathsOf_upload s ks f tg ok]
      intro p hp
      rcases List.mem_append.mp hp with hold | hnew
      · exact h3 p hold
      · exact ⟨resolveName ks f, List.mem_singleton.mp hnew⟩
  | rename i nm =>
    refine ⟨?_, ?_, ?_⟩ <;> rw [show pathsOf (runOp (s, ks) (.rename i nm)).1
        = pathsOf s from pathsOf_rename s i nm]
    · exact h1
    · exact h2
    · exact h3
  | reorder o =>
    refine ⟨?_, ?_, ?_⟩ <;> rw [show pathsOf (runOp (s, ks) (.reorder o)).1
        = pathsOf s from pathsOf_reorder s o]
    · exact h1
    · exact h2
    · exact h3
  | delete i ok =>
    match i with
    | none => exact ⟨h1, h2, h3⟩
    | some 0 => exact ⟨h1, h2, h3⟩
    | some (n + 1) =>
      cases hfind : s.tracks.find? (fun t => t.id == n + 1) with
      | none =>
        simp only [runOp, delete_song, hfind]
        exact ⟨h1, h2, h3⟩
      | some song =>
        have hsongmem : song ∈ s.tracks := List.mem_of_find?_eq_some hfind
        have hsongid : song.id = n + 1 := by
          simpa using List.find?_some hfind
        have hsub : (s.tracks.filter (fun t => t.id != n + 1)).Sublist s.tracks :=
          List.filter_sublist _
        have hpsub : pathsOf ⟨s.tracks.filter (fun t => t.id != n + 1), s.nextId⟩
            ⊆ pathsOf s := by
          simp only [pathsOf]
          exact (hsub.map _).subset
        have g1 : (pathsOf ⟨s.tracks.filter (fun t => t.id != n + 1), s.nextId⟩).Nodup := by
          simp only [pathsOf]
          exact (hsub.map _).nodup h1
        have g3 : ∀ p ∈ pathsOf ⟨s.tracks.filter (fun t => t.id != n + 1), s.nextId⟩,
            ∃ nm, p = s3Path nm := fun p hp => h3 p (hpsub hp)
        have g2 : ∀ p ∈ pathsOf ⟨s.tracks.filter (fun t => t.id != n + 1), s.nextId⟩,
            p ∈ (if ok then
              if song.has_art != 0 then
                (ks.filter (fun k => k != song.path)).filter (fun k => k != artPath song.id)
              else ks.filter (fun k => k != song.path)
            else ks) := by
          intro p hp
          simp only [pathsOf, List.mem_map] at hp
          obtain ⟨t, htmem, rfl⟩ := hp
          have htrk : t ∈ s.tracks := (List.mem_filter.mp htmem).1
          have htne : t.id ≠ n + 1 := by
            have := (List.mem_filter.mp htmem).2
            simpa using this
          have hkp : t.path ∈ ks := h2 (List.mem_map_of_mem _ htrk)
          have hne_song : t.path ≠ song.path := by
            intro he
            exact htne (hsongid ▸ congrArg Track.id
              (List.inj_on_of_nodup_map h1 htrk hsongmem he))
          have hne_art : t.path ≠ artPath song.id := by
            obtain ⟨nm2, hnm2⟩ := h3 t.path (List.mem_map_of_mem _ htrk)
            rw [hnm2]
            exact s3Path_ne_artPath nm2 song.id
          by_cases hok : ok
          · by_cases hart : song.has_art != 0
            · simp [hok, hart, List.mem_filter, hkp, hne_song, hne_art]
            · simp [hok, hart, List.mem_filter, hkp, hne_song]
          · simp [hok, hkp]
        simp only [runOp, delete_song, hfind]
        exact ⟨g1, g2, g3⟩

/-- The invariant holds along every operation sequence. -/
theorem run_invariant : ∀ (ops : List Op) (s : Store) (ks : List Str),
    (pathsOf s).Nodup → pathsOf s ⊆ ks →
    (∀ p ∈ pathsOf s, ∃ nm, p = s3Path nm) →
    (pathsOf (ops.foldl runOp (s, ks)).1).Nodup
      ∧ pathsOf (ops.foldl runOp (s, ks)).1 ⊆ (ops.foldl runOp (s, ks)).2
      ∧ ∀ p ∈ pathsOf (ops.foldl runOp (s, ks)).1, ∃ nm, p = s3Path nm
  | [], _, _, h1, h2, h3 => ⟨h1, h2, h3⟩
  | op :: ops, s, ks, h1, h2, h3 => by
    rw [List.foldl_cons]
    obtain ⟨g1, g2, g3⟩ := runOp_step op s ks h1 h2 h3
    have := run_invariant ops (runOp (s, ks) op).1 (runOp (s, ks) op).2 g1 g2 g3
    simpa using this

/-! ## Claim C6: reorder semantics -/

/-- C6: for pairwise distinct ids, reorder assigns `ordering = index` to
the row named at each (index, id) pair — the row whose id sits at position
`j` of the list ends with `ordering = j` — silently skips ids naming no
row and touches nothing else; it is all-or-nothing: when the loop raises
partway (an entry `int()` cannot parse), `db.session.rollback()` leaves
every row's ordering at its pre-call value; and reorder([3,1,2]) over
tracks with ids 1,2,3 yields orderings id 3 → 0, id 1 → 1, id 2 → 2. -/
theorem reorder_spec :
    (∀ (s : Store) (ids : List Nat), ids.Nodup →
      reorder_playlist s (ids.map some)
        = (⟨s.tracks.map (fun t =>
            (ids.findIdx? (fun i => i == t.id)).elim t
              fun j => { t with ordering := j }), s.nextId⟩, none))
    ∧ (∀ (s : Store) (order : List (Option Nat)), none ∈ order →
      reorder_playlist s order = (s, some .invalidInput))
    ∧ ((reorder_playlist (run c6Ops).1 [some 3, some 1, some 2]).1.tracks.map
        fun t => (t.id, t.ordering)) = [(1, 1), (2, 2), (3, 0)] := by
  refine ⟨?_, ?_, ?_⟩
  · intro s ids h
    unfold reorder_playlist
    rw [applyReorder_allSome ids 0 s h]
    simp [Nat.zero_add]
  · intro s order h
    unfold reorder_playlist
    rw [applyReorder_of_mem_none order 0 s h]
  · decide

/-- C6 witness: a list with an unparseable entry rolls back, leaving the
three-track store untouched. -/
theorem reorder_spec_witness :
    reorder_playlist (run c6Ops).1 [some 1, none]
      = ((run c6Ops).1, some .invalidInput) :=
  reorder_spec.2.1 (run c6Ops).1 [some 1, none] (by decide)

/-! ## Claim C3: storage key uniqueness -/

/-- C3: every upload's storage key fails the bucket membership test — so
it is distinct from every prior live key — after any operation sequence no
two live rows share a storage key, and on collision the key is the
original filename with `_N` (N probed sequentially from 1) inserted before
its extension: the second upload of "song.mp3" gets "uploads/song_1.mp3",
whose name is literally the stem, an underscore, the rendered counter 1,
then the extension. -/
theorem upload_key_unique_spec :
    (∀ (ks : List Str) (f : Str), s3Path (resolveName ks f) ∉ ks)
    ∧ (∀ ops : List Op, (pathsOf (run ops).1).Nodup)
    ∧ ((run c9Ops).1.tracks.map fun t => t.path)
        = ["uploads/song.mp3".toList, "uploads/song_1.mp3".toList]
    ∧ resolveName ["uploads/song.mp3".toList] "song.mp3".toList
        = mkCandidate "song.mp3".toList 1
    ∧ mkCandidate "song.mp3".toList 1
        = "song".toList ++ (('_' :: natRepr 1) ++ ".mp3".toList) := by
  refine ⟨resolveName_fresh, ?_, by decide, by decide, by decide⟩
  intro ops
  unfold run
  exact (run_invariant ops emptyStore [] (by simp [pathsOf, emptyStore])
    (by simp [pathsOf, emptyStore]) (by simp [pathsOf, emptyStore])).1

/-! ## Claim C8: metadata extraction fallback -/

/-- C8: metadata extraction never lets an exception cross the upload
boundary (the embedded `try/except` is a total function); on unparsable
bytes every metadata field — artist, album, duration, cover art — is
absent and the title falls back to the filename stem with underscores
replaced by spaces and capitalized; for "my_song.mp3" that fallback is
"My song". -/
theorem metadata_fallback_spec :
    (∀ nm : Str, extractMeta none nm
        = ⟨fallbackTitle nm, none, none, none, none⟩)
    ∧ fallbackTitle "my_song.mp3".toList = "My song".toList := by
  constructor
  · intro nm
    rfl
  · decide

/-! ## Claim C4: listing order -/

/-- C4 counterexample: after insert, insert, reorder([1]), reorder([2])
both rows have ordering 0, so the orderings in one listing are not
pairwise distinct. -/
theorem playlist_ordering_cex :
    ((get_playlist (run c4Ops).1).map fun t => t.ordering) = [0, 0]
    ∧ ¬ ((get_playlist (run c4Ops).1).map fun t => t.ordering).Nodup := by
  constructor <;> decide

/-- C4 amended: after any sequence of operations, `list()` returns the rows
sorted non-decreasingly by `ordering`; the ordering values are not
guaranteed pairwise distinct (a reorder covering only a subset of the ids
can duplicate them), and the relative order of rows with equal ordering is
not specified by the source's `ORDER BY ordering ASC` query. -/
theorem playlist_sorted_spec :
    ∀ ops : List Op, List.Sorted byOrdering (get_playlist (run ops).1) :=
  fun _ => List.sorted_insertionSort byOrdering _

/-! ## Claim C5: delete semantics -/

/-- C5 counterexample: id 0 is absent from the store (the one reachable by
a single upload, whose only row has id 1), yet deleting it trips the
Python falsy check `if not song_id` and fails with InvalidInput, not
NotFound. -/
theorem delete_notfound_cex :
    ((run c5Ops).1.tracks.map fun t => t.id) = [1]
    ∧ (delete_song (run c5Ops).1 (run c5Ops).2 (some 0) true).2
        = some Err.invalidInput := by
  constructor <;> decide

/-- C5 amended: deleting a positive id absent from the store fails with
NotFound and leaves catalog and bucket unchanged (a missing or zero id
instead trips the falsy input check, failing with InvalidInput); deleting a
present track removes its catalog row — the row set after deletion is
exactly the rows with a different id, so a subsequent `list()` never
includes it — and the catalog outcome is identical whether or not the blob
deletes succeed, since their failure is logged, not propagated. -/
theorem delete_spec :
    (∀ (s : Store) (ks : List Str) (i : Nat) (ok : Bool), i ≠ 0 →
      (∀ t ∈ s.tracks, t.id ≠ i) →
      delete_song s ks (some i) ok = ((s, ks), some .notFound))
    ∧ (∀ (s : Store) (ks : List Str) (i : Nat) (ok : Bool) (t0 : Track),
      t0 ∈ s.tracks → t0.id = i → i ≠ 0 →
      ((delete_song s ks (some i) ok).2 = none
        ∧ ((delete_song s ks (some i) ok).1.1).tracks
            = s.tracks.filter (fun t => t.id != i)
        ∧ ∀ t ∈ get_playlist (delete_song s ks (some i) ok).1.1, t.id ≠ i))
    ∧ (∀ (s : Store) (ks1 ks2 : List Str) (i : Option Nat),
      (delete_song s ks1 i true).1.1 = (delete_song s ks2 i false).1.1
        ∧ (delete_song s ks1 i true).2 = (delete_song s ks2 i false).2) := by
  refine ⟨?_, ?_, ?_⟩
  · intro s ks i ok hi habs
    obtain ⟨n, rfl⟩ := Nat.exists_eq_succ_of_ne_zero hi
    have hnone : s.tracks.find? (fun t => t.id == n + 1) = none := by
      rw [List.find?_eq_none]
      intro t ht
      simpa using habs t ht
    simp [delete_song, hnone]
  · intro s ks i ok t0 ht0 hid hi
    obtain ⟨n, rfl⟩ := Nat.exists_eq_succ_of_ne_zero hi
    have hsome : (s.tracks.find? (fun t => t.id == n + 1)).isSome := by
      rw [List.find?_isSome]
      exact ⟨t0, ht0, by simpa using hid⟩
    obtain ⟨t1, ht1⟩ := Option.isSome_iff_exists.mp hsome
    refine ⟨by simp [delete_song, ht1], by simp [delete_song, ht1], ?_⟩
    intro t ht
    have hmem : t ∈ ((delete_song s ks (some (n + 1)) ok).1.1).tracks := by
      simpa [get_playlist] using ht
    rw [show ((delete_song s ks (some (n + 1)) ok).1.1).tracks
        = s.tracks.filter (fun t => t.id != n + 1) by simp [delete_song, ht1]] at hmem
    have := List.of_mem_filter hmem
    simpa using this
  · intro s ks1 ks2 i
    match i with
    | none => exact ⟨rfl, rfl⟩
    | some 0 => exact ⟨rfl, rfl⟩
    | some (n + 1) =>
      cases hfind : s.tracks.find? (fun t => t.id == n + 1) with
      | none => simp [delete_song, hfind]
      | some t1 => simp [delete_song, hfind]

/-- C5 witness: deleting the only track (id 1) with both blob deletes
failing still removes the catalog row; deleting absent id 7 is NotFound. -/
theorem delete_spec_witness :
    (delete_song (run c5Ops).1 (run c5Ops).2 (some 1) false).2 = none
    ∧ ((delete_song (run c5Ops).1 (run c5Ops).2 (some 1) false).1.1).tracks
        = (run c5Ops).1.tracks.filter (fun t => t.id != 1)
    ∧ delete_song (run c5Ops).1 (run c5Ops).2 (some 7) false
        = (((run c5Ops).1, (run c5Ops).2), some .notFound) := by
  have h2 := (delete_spec.2.1 (run c5Ops).1 (run c5Ops).2 1 false
    ((run c5Ops).1.tracks.head (by decide)) (by decide) (by decide) (by decide))
  exact ⟨h2.1, h2.2.1,
    delete_spec.1 (run c5Ops).1 (run c5Ops).2 7 false (by decide) (by decide)⟩

/-! ## Claim C9: displayName -/

/-- C9 counterexample: the second upload of a file also named "song.mp3"
creates a row whose displayName is the deduplicated "song_1.mp3", not the
original filename the client supplied. -/
theorem display_name_cex :
    ((run c9Ops).1.tracks.map fun t => t.name)
      = ["song.mp3".toList, "song_1.mp3".toList]
    ∧ "song_1.mp3".toList ≠ "song.mp3".toList := by
  constructor <;> decide

/-- C9 amended: every successful upload's displayName is the
collision-resolved storage filename — equal to the (sanitized) original
filename exactly when its key is free, otherwise that name with `_N`
inserted before the extension — and no later operation modifies it: rename
rewrites title only and reorder rewrites ordering only, each preserving
every row's (id, displayName). -/
theorem display_name_spec :
    (∀ (s : Store) (ks : List Str) (f : Str) (tg : Option Tag) (ok : Bool),
      ((upload s ks f tg ok).1.tracks.map fun t => t.name)
        = (s.tracks.map fun t => t.name) ++ [resolveName ks f])
    ∧ (∀ (ks : List Str) (f : Str), s3Path f ∉ ks → resolveName ks f = f)
    ∧ (∀ (s : Store) (i : Nat) (nm : Str),
      ((rename_song s i nm).1.tracks.map fun t => (t.id, t.name))
        = s.tracks.map fun t => (t.id, t.name))
    ∧ (∀ (s : Store) (o : List (Option Nat)),
      ((reorder_playlist s o).1.tracks.map fun t => (t.id, t.name))
        = s.tracks.map fun t => (t.id, t.name)) := by
  refine ⟨?_, ?_, ?_, ?_⟩
  · intro s ks f tg ok
    simp only [upload]
    split <;> simp
  · intro ks f h
    exact probeName_of_free ks f (ks.length + 2) f 1 h
  · intro s i nm
    unfold rename_song
    split
    · rfl
    · cases hfind : s.tracks.find? (fun t => t.id == i) with
      | none => simp [hfind]
      | some t1 =>
        simp only [hfind, List.map_map, List.map_inj_left]
        intro a _
        by_cases hid : a.id = i <;> simp [hid]
  · intro s o
    unfold reorder_playlist
    cases happ : applyReorder s o 0 with
    | none => simp
    | some s2 => simpa using
        applyReorder_map_eq (fun t => (t.id, t.name)) (fun _ _ => rfl) o 0 s s2 happ

/-- C9 witness: a fresh upload of "b.mp3" keeps its own name, and renaming
track 1 leaves both displayNames in place. -/
theorem display_name_spec_witness :
    resolveName [] "b.mp3".toList = "b.mp3".toList
    ∧ (((rename_song (run c9Ops).1 1 "NewTitle".toList).1.tracks.map
          fun t => (t.id, t.name))
        = (run c9Ops).1.tracks.map fun t => (t.id, t.name)) :=
  ⟨display_name_spec.2.1 [] "b.mp3".toList (by decide),
   display_name_spec.2.2.1 (run c9Ops).1 1 "NewTitle".toList⟩

end DisMusic
